import Mathlib

/-!
Shallow embedding of the ipng2iff converter (`src/iffimage.rs` and `src/main.rs`)
and a verification of its specification.

Modelling conventions:
* Rust machine integers become `Nat` (or `Int` for `i16` fields); casts such as
  `as u8` / `as u16` / `as u32` become explicit `% 256` / `% 65536` / be32
  truncation where they can matter.
* Fallible code returns `Option`: `none` models an index-out-of-bounds panic
  (`slice[i]` on a too-short slice).  Returned `Result` errors are `Except`.
* The external PNG decoder is out of scope (spec §6): `from_png` starts from a
  `PngInfo` record holding exactly what `from_png_file` reads off the decoder:
  the color type, the optional palette bytes, the geometry, and the decoded
  pixel buffer of RGB triples.
-/

namespace Ipng2iff

/-- Big-endian bytes of a `u16` (`u16::to_be_bytes`). -/
def be16 (n : Nat) : List Nat :=
  [n / 256 % 256, n % 256]

/-- Big-endian bytes of an `i16` (`i16::to_be_bytes`), via its two's-complement
16-bit pattern `x mod 2^16`. -/
def be16i (x : Int) : List Nat :=
  be16 ((x % 65536).toNat)

/-- Big-endian bytes of a `u32` (`u32::to_be_bytes`); a larger argument is
truncated exactly as `as u32` would truncate it. -/
def be32 (n : Nat) : List Nat :=
  [n / 16777216 % 256, n / 65536 % 256, n / 256 % 256, n % 256]

/-- `png::ColorType` (the variants of the png crate). -/
inductive ColorType where
  | Grayscale
  | RGB
  | Indexed
  | GrayscaleAlpha
  | RGBA
  deriving DecidableEq, Repr

/-- `IffConvertError` from `src/iffimage.rs`. -/
inductive IffConvertError where
  | WrongColorType (c : ColorType)
  | NoPalette
  | EmptyPalette
  | TooManyColors (n : Nat)
  | InvalidPixel (rgb : Nat × Nat × Nat)
  deriving DecidableEq, Repr

/-- `Color` (one palette entry, fields `r`, `g`, `b` of type `u8`). -/
structure Color where
  r : Nat
  g : Nat
  b : Nat
  deriving DecidableEq, Repr

/-- `ColorMap` (field `colors: Vec<Color>`). -/
structure ColorMap where
  colors : List Color
  deriving DecidableEq, Repr

/-- `BitmapHeader`.  The source's `_pad1` field is never read (`get_bmhd`
pushes the literal `0` for the pad byte), so it is not modelled. -/
structure BitmapHeader where
  width : Nat
  height : Nat
  x : Int
  y : Int
  bitplanes : Nat
  masking : Nat
  compression : Nat
  transparent_color : Nat
  x_aspect : Nat
  y_aspect : Nat
  page_width : Nat
  page_height : Nat
  deriving DecidableEq, Repr

/-- `IffImage` (the canonical image record). -/
structure IffImage where
  bmhd : BitmapHeader
  cmap : ColorMap
  pixels : List Nat
  deriving DecidableEq, Repr

/-- What `from_png_file` reads off the external PNG decoder: color type,
optional palette bytes, geometry, and the decoded frame buffer (a flat list of
bytes; for an indexed PNG expanded to RGB triples per the decoder contract). -/
structure PngInfo where
  color_type : ColorType
  palette : Option (List Nat)
  width : Nat
  height : Nat
  buf : List Nat
  deriving DecidableEq, Repr

/-- Fuel-driven ceiling base-2 logarithm, `ceilLog2Aux fuel n` with `fuel ≥ n`.
Uses the recurrence `clog2 n = clog2 (ceil (n / 2)) + 1` for `n > 1`. -/
def ceilLog2Aux : Nat → Nat → Nat
  | 0, _ => 0
  | fuel + 1, n => if n ≤ 1 then 0 else ceilLog2Aux fuel ((n + 1) / 2) + 1

/-- `(num_colors as f32).log2().ceil() as u8` from `from_png_file`, modelled as
the exact ceiling base-2 logarithm.  For every argument the code can pass
(`0 ≤ num_colors ≤ 255`) the `f32` computation is exact: each such value is
exactly representable, `log2` of it is computed to within far less than the
distance to the next integer, and the `ceil`/saturating-cast pipeline yields
exactly `ceil (log2 num_colors)` (with `log2 0 = -inf` casting to `0`). -/
def ceilLog2 (n : Nat) : Nat :=
  ceilLog2Aux n n

/-- `slice::chunks(3)`: splits a byte list into 3-byte chunks; the last chunk
may be shorter; an empty list yields no chunks. -/
def chunks3 : List Nat → List (List Nat)
  | [] => []
  | [a] => [[a]]
  | [a, b] => [[a, b]]
  | a :: b :: c :: rest => [a, b, c] :: chunks3 rest

/-- Sequential `Option`-valued map; `none` (a panic while processing one
element) aborts the whole traversal, exactly like iterating the Rust
iterator in order. -/
def mapOption (f : α → Option β) : List α → Option (List β)
  | [] => some []
  | a :: l => do
    let b ← f a
    let bs ← mapOption f l
    pure (b :: bs)

/-- The palette-chunk-to-`Color` closure of `from_png_file`: reads `c[0]`,
`c[1]`, `c[2]` unconditionally; a short final chunk makes `c[1]` or `c[2]`
panic (`none`). -/
def colorFromChunk (chunk : List Nat) : Option Color := do
  let r ← chunk[0]?
  let g ← chunk[1]?
  let b ← chunk[2]?
  pure { r := r, g := g, b := b }

/-- The `position` predicate closure of `from_png_file`:
`pixel[0] == color.r && pixel[1] == color.g && pixel[2] == color.b`, with
Rust's short-circuit `&&` (later components are only indexed when the earlier
ones matched). -/
def pixelMatch (pixel : List Nat) (color : Color) : Option Bool := do
  let p0 ← pixel[0]?
  if p0 = color.r then
    let p1 ← pixel[1]?
    if p1 = color.g then
      let p2 ← pixel[2]?
      pure (decide (p2 = color.b))
    else
      pure false
  else
    pure false

/-- `Iterator::position` over the palette colors, carrying the running index. -/
def findPos (pixel : List Nat) : List Color → Nat → Option (Option Nat)
  | [], _ => some none
  | color :: rest, i => do
    let b ← pixelMatch pixel color
    if b then pure (some i) else findPos pixel rest (i + 1)

/-- The per-pixel-chunk mapping of `from_png_file`: palette `position` plus the
`index as u8` cast on success, `InvalidPixel([pixel[0], pixel[1], pixel[2]])`
when no entry matches (building that array indexes the chunk again and can
itself panic on a short final chunk). -/
def mapPixel (colors : List Color) (pixel : List Nat) :
    Option (Except IffConvertError Nat) := do
  match ← findPos pixel colors 0 with
  | some index => pure (Except.ok (index % 256))
  | none => do
    let p0 ← pixel[0]?
    let p1 ← pixel[1]?
    let p2 ← pixel[2]?
    pure (Except.error (IffConvertError.InvalidPixel (p0, p1, p2)))

/-- The whole pixel-mapping pass of `from_png_file`.  The source runs the lazy
iterator twice (`find(|p| p.is_err())`, then `map(unwrap).collect()`); since the
iterator is deterministic this equals one sequential pass that stops at the
first returned error and propagates the first panic. -/
def mapPixels (colors : List Color) :
    List (List Nat) → Option (Except IffConvertError (List Nat))
  | [] => some (Except.ok [])
  | chunk :: rest => do
    match ← mapPixel colors chunk with
    | Except.error e => pure (Except.error e)
    | Except.ok i =>
      match ← mapPixels colors rest with
      | Except.error e => pure (Except.error e)
      | Except.ok is => pure (Except.ok (i :: is))

/-- `IffImage::from_png_file`, starting after the external PNG decode (file
open, `read_info`, `next_frame` are the out-of-scope decoder, spec §6).
`none` models a panic; `some (Except.error e)` a returned conversion error. -/
def from_png (info : PngInfo) : Option (Except IffConvertError IffImage) :=
  if info.color_type ≠ ColorType.Indexed then
    some (Except.error (IffConvertError.WrongColorType info.color_type))
  else
    match info.palette with
    | none => some (Except.error IffConvertError.NoPalette)
    | some palette =>
      if palette.length = 0 then
        some (Except.error IffConvertError.EmptyPalette)
      else
        let num_colors := palette.length / 3
        if num_colors > 255 then
          some (Except.error (IffConvertError.TooManyColors num_colors))
        else
          let bitplanes := ceilLog2 num_colors
          match mapOption colorFromChunk (chunks3 palette) with
          | none => none
          | some colors =>
            match mapPixels colors (chunks3 info.buf) with
            | none => none
            | some (Except.error e) => some (Except.error e)
            | some (Except.ok pixels) =>
              some (Except.ok
                { bmhd :=
                    { width := info.width % 65536
                      height := info.height % 65536
                      x := 0
                      y := 0
                      bitplanes := bitplanes
                      masking := 0
                      compression := 0
                      transparent_color := 0
                      x_aspect := 0
                      y_aspect := 0
                      page_width := info.width % 65536
                      page_height := info.height % 65536 }
                  cmap := { colors := colors }
                  pixels := pixels })

/-- `IffImage::get_bmhd`: the 20 header bytes, in push order. -/
def get_bmhd (img : IffImage) : List Nat :=
  be16 img.bmhd.width ++ be16 img.bmhd.height
    ++ be16i img.bmhd.x ++ be16i img.bmhd.y
    ++ [img.bmhd.bitplanes, img.bmhd.masking, img.bmhd.compression, 0]
    ++ be16 img.bmhd.transparent_color
    ++ [img.bmhd.x_aspect, img.bmhd.y_aspect]
    ++ be16 img.bmhd.page_width ++ be16 img.bmhd.page_height

/-- `IffImage::get_cmap`: folds the palette into `r`, `g`, `b` byte pushes. -/
def get_cmap (img : IffImage) : List Nat :=
  img.cmap.colors.foldl (fun v color => v ++ [color.r, color.g, color.b]) []

/-- Inner `for bit in 0..8` loop of `get_body`: reads `pixels[base + bit]`
(`none` on out of bounds), masks with `2i32.pow(bpl) as u8` = `2^bpl mod 256`,
and sets bit `7 - bit` of the accumulator (`value |= 1 << (7 - bit)`). -/
def bodyByteAux (pixels : List Nat) (bpl : Nat) : Nat → List Nat → Nat → Option Nat
  | _, [], value => some value
  | base, bit :: bits, value =>
    match pixels[base + bit]? with
    | none => none
    | some p =>
      bodyByteAux pixels bpl base bits
        (if p &&& (2 ^ bpl % 256) ≠ 0 then value ||| (1 <<< (7 - bit)) else value)

/-- One output byte of `get_body`: the 8-pixel block starting at `base`. -/
def bodyByte (pixels : List Nat) (base bpl : Nat) : Option Nat :=
  bodyByteAux pixels bpl base (List.range 8) 0

/-- `for row_index in 0..width/8` loop of `get_body`: one interleaved
plane-row; `pixel_index` advances by 8 per output byte.  `row[row_index] =
value` followed by `v.extend_from_slice(&row)` is modelled by collecting the
bytes in order (every index of the row buffer is overwritten on each pass). -/
def planeRowAux (pixels : List Nat) (bpl : Nat) : List Nat → Nat → Option (List Nat)
  | [], _ => some []
  | _ri :: ris, pixelIndex => do
    let value ← bodyByte pixels pixelIndex bpl
    let rest ← planeRowAux pixels bpl ris (pixelIndex + 8)
    pure (value :: rest)

/-- `for bpl in 0..bitplanes` loop of `get_body`: each bitplane's row for the
current image row, each restarting from `row_pixel_index`. -/
def bodyPlanes (pixels : List Nat) (rowBytes rowPixelIndex : Nat) :
    List Nat → Option (List Nat)
  | [] => some []
  | bpl :: bpls => do
    let row ← planeRowAux pixels bpl (List.range rowBytes) rowPixelIndex
    let rest ← bodyPlanes pixels rowBytes rowPixelIndex bpls
    pure (row ++ rest)

/-- `for _y in 0..height` loop of `get_body`: `row_pixel_index += width` after
the bitplanes of each image row. -/
def bodyRows (pixels : List Nat) (width rowBytes : Nat) (bitplanes : List Nat) :
    List Nat → Nat → Option (List Nat)
  | [], _ => some []
  | _y :: ys, rowPixelIndex => do
    let planes ← bodyPlanes pixels rowBytes rowPixelIndex bitplanes
    let rest ← bodyRows pixels width rowBytes bitplanes ys (rowPixelIndex + width)
    pure (planes ++ rest)

/-- `IffImage::get_body`: row bytes per plane-row = `width / 8` (u16 integer
division). -/
def get_body (img : IffImage) : Option (List Nat) :=
  bodyRows img.pixels img.bmhd.width (img.bmhd.width / 8)
    (List.range img.bmhd.bitplanes) (List.range img.bmhd.height) 0

/-- `IffImage::get_ilbm`: the inner form.  Tags are ASCII byte values:
`[73,76,66,77]` = "ILBM", `[66,77,72,68]` = "BMHD", `[67,77,65,80]` = "CMAP",
`[66,79,68,89]` = "BODY". -/
def get_ilbm (img : IffImage) : Option (List Nat) := do
  let bmhd := get_bmhd img
  let cmap := get_cmap img
  let body ← get_body img
  pure ([73, 76, 66, 77]
    ++ ([66, 77, 72, 68] ++ be32 bmhd.length ++ bmhd)
    ++ ([67, 77, 65, 80] ++ be32 cmap.length ++ cmap)
    ++ ([66, 79, 68, 89] ++ be32 body.length ++ body))

/-- `IffImage::write`: the bytes pushed to the sink.  `[70,79,82,77]` = "FORM".
I/O failure of the sink is out of scope; `none` is a panic inside
`get_body`. -/
def write (img : IffImage) : Option (List Nat) := do
  let ilbm ← get_ilbm img
  pure ([70, 79, 82, 77] ++ be32 ilbm.length ++ ilbm)

/-! ### Proof-side models and concrete records -/

/-- Concatenation of byte rows (proof-side model of repeated
`v.extend_from_slice`). -/
def cat : List (List Nat) → List Nat
  | [] => []
  | l :: ls => l ++ cat ls

/-- Whether `get_body`'s test `pixels[base + bit] & (2^bpl mod 256) != 0`
fires. -/
def maskBit (pixels : List Nat) (bpl base bit : Nat) : Bool :=
  decide (pixels.getD (base + bit) 0 &&& (2 ^ bpl % 256) ≠ 0)

/-- Closed form of one `get_body` output byte: big-endian bit order, leftmost
pixel in the most significant bit. -/
def byteVal (pixels : List Nat) (base bpl : Nat) : Nat :=
  cond (maskBit pixels bpl base 0) 128 0 ||| cond (maskBit pixels bpl base 1) 64 0
    ||| cond (maskBit pixels bpl base 2) 32 0 ||| cond (maskBit pixels bpl base 3) 16 0
    ||| cond (maskBit pixels bpl base 4) 8 0 ||| cond (maskBit pixels bpl base 5) 4 0
    ||| cond (maskBit pixels bpl base 6) 2 0 ||| cond (maskBit pixels bpl base 7) 1 0

/-- Closed form of the whole `get_body` output: row-interleaved bitplane
layout. -/
def bodyModel (pixels : List Nat) (width nplanes height : Nat) : List Nat :=
  cat ((List.range height).map (fun y =>
    cat ((List.range nplanes).map (fun bpl =>
      (List.range (width / 8)).map (fun ri => byteVal pixels (y * width + 8 * ri) bpl)))))

/-- The record of the source's `one_bitplanes_body` unit test. -/
def testImg1 : IffImage :=
  { bmhd := { width := 8, height := 1, x := 0, y := 0, bitplanes := 1, masking := 0,
              compression := 0, transparent_color := 0, x_aspect := 0, y_aspect := 0,
              page_width := 0, page_height := 0 },
    cmap := { colors := [{ r := 0, g := 0, b := 0 }, { r := 255, g := 255, b := 255 }] },
    pixels := [0, 1, 0, 1, 0, 1, 0, 1] }

/-- The record of the source's `two_bitplanes_body` unit test. -/
def testImg2 : IffImage :=
  { bmhd := { width := 8, height := 1, x := 0, y := 0, bitplanes := 2, masking := 0,
              compression := 0, transparent_color := 0, x_aspect := 0, y_aspect := 0,
              page_width := 0, page_height := 0 },
    cmap := { colors := [{ r := 0, g := 0, b := 0 }, { r := 0, g := 0, b := 0 },
                         { r := 0, g := 0, b := 0 }] },
    pixels := [0, 1, 2, 2, 1, 0, 0, 1] }

/-- A 1x1 indexed input with a single-color palette (`num_colors = 1`). -/
def onePixelInfo : PngInfo :=
  { color_type := ColorType.Indexed, palette := some [0, 0, 0],
    width := 1, height := 1, buf := [0, 0, 0] }

/-- The record `from_png` produces for `onePixelInfo`. -/
def oneColorImg : IffImage :=
  { bmhd := { width := 1, height := 1, x := 0, y := 0, bitplanes := 0, masking := 0,
              compression := 0, transparent_color := 0, x_aspect := 0, y_aspect := 0,
              page_width := 1, page_height := 1 },
    cmap := { colors := [{ r := 0, g := 0, b := 0 }] },
    pixels := [0] }

/-- Indexed input whose palette byte length (2) is nonzero but not a multiple
of 3. -/
def badPalInfo : PngInfo :=
  { color_type := ColorType.Indexed, palette := some [0, 0],
    width := 0, height := 0, buf := [] }

/-- Indexed input with a valid palette but a pixel buffer byte length (2) that
is not a multiple of 3. -/
def badBufInfo : PngInfo :=
  { color_type := ColorType.Indexed, palette := some [0, 0, 0],
    width := 1, height := 1, buf := [0, 0] }

/-- A record whose width (9) is not a multiple of 8. -/
def oddWidthImg : IffImage :=
  { bmhd := { width := 9, height := 1, x := 0, y := 0, bitplanes := 1, masking := 0,
              compression := 0, transparent_color := 0, x_aspect := 0, y_aspect := 0,
              page_width := 9, page_height := 1 },
    cmap := { colors := [{ r := 0, g := 0, b := 0 }] },
    pixels := [1, 0, 1, 0, 1, 0, 1, 0, 1] }

/-- A non-indexed input. -/
def rgbInfo : PngInfo :=
  { color_type := ColorType.RGB, palette := some [0, 0, 0],
    width := 1, height := 1, buf := [0, 0, 0] }

/-! ### Helper lemmas -/

theorem ceilLog2Aux_eq_clog : ∀ fuel n, n ≤ fuel → ceilLog2Aux fuel n = Nat.clog 2 n := by
  intro fuel
  induction fuel with
  | zero =>
    intro n hn
    have : n = 0 := by omega
    subst this
    simp [ceilLog2Aux]
  | succ k ih =>
    intro n hn
    by_cases h1 : n ≤ 1
    · simp [ceilLog2Aux, h1, Nat.clog_of_right_le_one h1]
    · have h2 : 2 ≤ n := by omega
      have hrec : (n + 1) / 2 ≤ k := by omega
      simp only [ceilLog2Aux, if_neg h1]
      rw [ih _ hrec, Nat.clog_of_two_le (by norm_num) h2]
      have h3 : n + 2 - 1 = n + 1 := by omega
      rw [h3]

/-- The embedded bitplane computation is the mathematical ceiling base-2 log. -/
theorem ceilLog2_eq_clog (n : Nat) : ceilLog2 n = Nat.clog 2 n :=
  ceilLog2Aux_eq_clog n n le_rfl

theorem cat_append (ls1 ls2 : List (List Nat)) :
    cat (ls1 ++ ls2) = cat ls1 ++ cat ls2 := by
  induction ls1 with
  | nil => simp [cat]
  | cons l ls ih => simp [cat, ih]

theorem cat_length_const (ls : List (List Nat)) (k : Nat) (h : ∀ l ∈ ls, l.length = k) :
    (cat ls).length = ls.length * k := by
  induction ls with
  | nil => simp [cat]
  | cons l ls ih =>
    simp only [cat, List.length_append, List.length_cons]
    rw [h l (by simp), ih (fun l hl => h l (by simp [hl]))]
    ring

theorem cat_getD_const (ls : List (List Nat)) (k : Nat) (h : ∀ l ∈ ls, l.length = k)
    (i j : Nat) (hi : i < ls.length) (hj : j < k) :
    (cat ls).getD (i * k + j) 0 = (ls.getD i []).getD j 0 := by
  induction ls generalizing i with
  | nil => simp at hi
  | cons l ls ih =>
    have hlen : l.length = k := h l (by simp)
    cases i with
    | zero =>
      simp only [List.getD_cons_zero, cat, Nat.zero_mul, Nat.zero_add]
      rw [List.getD_eq_getElem?_getD, List.getElem?_append, if_pos (by omega),
        ← List.getD_eq_getElem?_getD]
    | succ i' =>
      simp only [List.getD_cons_succ, cat]
      have harith : (i' + 1) * k + j = l.length + (i' * k + j) := by
        rw [hlen]; ring
      rw [List.getD_eq_getElem?_getD, harith, List.getElem?_append, if_neg (by omega),
        Nat.add_sub_cancel_left, ← List.getD_eq_getElem?_getD]
      exact ih (fun l hl => h l (by simp [hl])) i' (by simpa using hi)

theorem map_range_getD (f : Nat → Nat) (n i : Nat) (d : Nat) (hi : i < n) :
    ((List.range n).map f).getD i d = f i := by
  rw [List.getD_eq_getElem?_getD, List.getElem?_map, List.getElem?_range hi]
  rfl

theorem map_range_getD_list (f : Nat → List Nat) (n i : Nat) (hi : i < n) :
    ((List.range n).map f).getD i [] = f i := by
  rw [List.getD_eq_getElem?_getD, List.getElem?_map, List.getElem?_range hi]
  rfl

theorem cond_or_testBit : ∀ (b0 b1 b2 b3 b4 b5 b6 b7 : Bool) (j : Fin 8),
    ((cond b0 128 0 ||| cond b1 64 0 ||| cond b2 32 0 ||| cond b3 16 0
      ||| cond b4 8 0 ||| cond b5 4 0 ||| cond b6 2 0 ||| cond b7 1 0 : Nat)).testBit
        (7 - j.val)
      = [b0, b1, b2, b3, b4, b5, b6, b7].getD j.val false := by
  decide

/-- Bit `7 - j` of an output byte is the mask test of pixel `j` of its block. -/
theorem byteVal_testBit (pixels : List Nat) (base bpl j : Nat) (hj : j < 8) :
    (byteVal pixels base bpl).testBit (7 - j) = maskBit pixels bpl base j := by
  have h := cond_or_testBit (maskBit pixels bpl base 0) (maskBit pixels bpl base 1)
    (maskBit pixels bpl base 2) (maskBit pixels bpl base 3) (maskBit pixels bpl base 4)
    (maskBit pixels bpl base 5) (maskBit pixels bpl base 6) (maskBit pixels bpl base 7)
    ⟨j, hj⟩
  rw [byteVal, h]
  interval_cases j <;> rfl

/-- For byte-sized pixel values, the mask test is exactly `testBit bpl`; for
`bpl ≥ 8` the truncated mask `2^bpl mod 256 = 0` and `testBit` agree on
`false`. -/
theorem maskBit_eq_testBit (pixels : List Nat) (bpl base bit : Nat)
    (hp : pixels.getD (base + bit) 0 < 256) :
    maskBit pixels bpl base bit = (pixels.getD (base + bit) 0).testBit bpl := by
  rcases Nat.lt_or_ge bpl 8 with h8 | h8
  · have hm : 2 ^ bpl % 256 = 2 ^ bpl := by
      have : (2:Nat) ^ bpl < 2 ^ 8 := Nat.pow_lt_pow_right (by norm_num) h8
      exact Nat.mod_eq_of_lt (by norm_num at this ⊢; omega)
    rw [maskBit, hm, Nat.and_two_pow]
    cases htb : (pixels.getD (base + bit) 0).testBit bpl <;>
      simp [htb, Nat.pow_eq_zero]
  · have hdvd : (256:Nat) ∣ 2 ^ bpl := by
      have : (2:Nat) ^ 8 ∣ 2 ^ bpl := pow_dvd_pow 2 h8
      norm_num at this
      exact this
    have hm : 2 ^ bpl % 256 = 0 := (Nat.mod_eq_zero_of_dvd hdvd)
    have hfalse : (pixels.getD (base + bit) 0).testBit bpl = false :=
      Nat.testBit_lt_two_pow (lt_of_lt_of_le hp (by
        calc (256:Nat) = 2 ^ 8 := by norm_num
        _ ≤ 2 ^ bpl := Nat.pow_le_pow_right (by norm_num) h8))
    rw [maskBit, hm, hfalse]
    simp

theorem bodyByteAux_spec (pixels : List Nat) (bpl base : Nat) :
    ∀ (bits : List Nat) (value : Nat),
      (∀ b ∈ bits, base + b < pixels.length) →
      bodyByteAux pixels bpl base bits value =
        some (bits.foldl (fun v bit =>
          v ||| cond (maskBit pixels bpl base bit) (1 <<< (7 - bit)) 0) value) := by
  intro bits
  induction bits with
  | nil => intro value _; simp [bodyByteAux]
  | cons bit bits ih =>
    intro value hb
    have hlt : base + bit < pixels.length := hb bit (by simp)
    have hgd : pixels.getD (base + bit) 0 = pixels[base + bit] := by
      rw [List.getD_eq_getElem?_getD, List.getElem?_eq_getElem hlt]; rfl
    rw [bodyByteAux, List.getElem?_eq_getElem hlt]
    simp only [List.foldl_cons]
    rw [ih _ (fun b hbm => hb b (by simp [hbm]))]
    have hmask : maskBit pixels bpl base bit
        = decide (pixels[base + bit] &&& (2 ^ bpl % 256) ≠ 0) := by
      rw [maskBit, hgd]
    congr 2
    rw [hmask]
    by_cases hc : pixels[base + bit] &&& (2 ^ bpl % 256) ≠ 0
    · simp [hc]
    · simp [hc]

/-- All 8 accesses in bounds: one output byte is `byteVal`. -/
theorem bodyByte_spec (pixels : List Nat) (base bpl : Nat)
    (h : base + 8 ≤ pixels.length) :
    bodyByte pixels base bpl = some (byteVal pixels base bpl) := by
  rw [bodyByte, bodyByteAux_spec pixels bpl base (List.range 8) 0
    (fun b hb => by have := List.mem_range.mp hb; omega)]
  congr 1
  have hr : List.range 8 = [0, 1, 2, 3, 4, 5, 6, 7] := rfl
  rw [hr]
  simp only [List.foldl_cons, List.foldl_nil, byteVal, Nat.one_shiftLeft]
  norm_num

theorem planeRowAux_spec (pixels : List Nat) (bpl : Nat) :
    ∀ (ris : List Nat) (base : Nat),
      base + 8 * ris.length ≤ pixels.length →
      planeRowAux pixels bpl ris base =
        some ((List.range ris.length).map (fun t => byteVal pixels (base + 8 * t) bpl)) := by
  intro ris
  induction ris with
  | nil => intro base _; simp [planeRowAux]
  | cons ri ris ih =>
    intro base h
    rw [planeRowAux, bodyByte_spec pixels base bpl (by simp at h; omega),
      ih (base + 8) (by simp at h ⊢; omega)]
    show some _ = _
    rw [List.length_cons, List.range_succ_eq_map, List.map_cons, List.map_map]
    have hmap : (List.range ris.length).map
          ((fun t => byteVal pixels (base + 8 * t) bpl) ∘ Nat.succ)
        = (List.range ris.length).map (fun t => byteVal pixels (base + 8 + 8 * t) bpl) := by
      refine List.map_congr_left (fun t _ => ?_)
      show byteVal pixels (base + 8 * Nat.succ t) bpl = _
      have harith : base + 8 * Nat.succ t = base + 8 + 8 * t := by
        rw [Nat.mul_succ]; ring
      rw [harith]
    rw [hmap]
    simp

theorem bodyPlanes_spec (pixels : List Nat) (rowBytes rowBase : Nat)
    (hrb : rowBase + 8 * rowBytes ≤ pixels.length) :
    ∀ bpls : List Nat,
      bodyPlanes pixels rowBytes rowBase bpls =
        some (cat (bpls.map (fun bpl =>
          (List.range rowBytes).map (fun t => byteVal pixels (rowBase + 8 * t) bpl)))) := by
  intro bpls
  induction bpls with
  | nil => simp [bodyPlanes, cat]
  | cons bpl bpls ih =>
    rw [bodyPlanes, planeRowAux_spec pixels bpl (List.range rowBytes) rowBase
      (by simpa using hrb), ih]
    show some _ = _
    simp [cat]

theorem bodyRows_spec (pixels : List Nat) (width rowBytes : Nat) (bpls : List Nat)
    (hrw : 8 * rowBytes ≤ width) :
    ∀ (ys : List Nat) (rpi : Nat),
      rpi + ys.length * width ≤ pixels.length →
      bodyRows pixels width rowBytes bpls ys rpi =
        some (cat ((List.range ys.length).map (fun t =>
          cat (bpls.map (fun bpl =>
            (List.range rowBytes).map (fun ri =>
              byteVal pixels (rpi + t * width + 8 * ri) bpl)))))) := by
  intro ys
  induction ys with
  | nil => intro rpi _; simp [bodyRows, cat]
  | cons y ys ih =>
    intro rpi h
    have hexp : (ys.length + 1) * width = ys.length * width + width := by ring
    simp only [List.length_cons] at h
    rw [bodyRows, bodyPlanes_spec pixels rowBytes rpi (by omega) bpls,
      ih (rpi + width) (by omega)]
    show some _ = _
    rw [List.length_cons, List.range_succ_eq_map, List.map_cons, List.map_map]
    show some _ = some (cat (_ :: _))
    rw [cat]
    congr 2
    · refine congrArg cat (List.map_congr_left (fun bpl _ => ?_))
      refine List.map_congr_left (fun ri _ => ?_)
      have harith : rpi + 0 * width + 8 * ri = rpi + 8 * ri := by ring
      rw [harith]
    · refine congrArg cat (List.map_congr_left (fun t _ => ?_))
      show cat (bpls.map (fun bpl => (List.range rowBytes).map
            (fun ri => byteVal pixels (rpi + width + t * width + 8 * ri) bpl)))
          = cat (bpls.map (fun bpl => (List.range rowBytes).map
            (fun ri => byteVal pixels (rpi + Nat.succ t * width + 8 * ri) bpl)))
      have harith : rpi + Nat.succ t * width = rpi + width + t * width := by
        rw [Nat.succ_mul]; ring
      rw [harith]

/-- Closed form of `get_body` whenever the pixel buffer covers the image. -/
theorem get_body_spec (img : IffImage)
    (h : img.bmhd.width * img.bmhd.height ≤ img.pixels.length) :
    get_body img
      = some (bodyModel img.pixels img.bmhd.width img.bmhd.bitplanes img.bmhd.height) := by
  have hrw : 8 * (img.bmhd.width / 8) ≤ img.bmhd.width := by
    have := Nat.div_mul_le_self img.bmhd.width 8
    omega
  rw [get_body, bodyRows_spec img.pixels img.bmhd.width (img.bmhd.width / 8)
    (List.range img.bmhd.bitplanes) hrw (List.range img.bmhd.height) 0
    (by simpa [Nat.mul_comm] using h)]
  rw [bodyModel]
  simp only [List.length_range]
  congr 1
  refine congrArg cat (List.map_congr_left (fun y _ => ?_))
  refine congrArg cat (List.map_congr_left (fun bpl _ => ?_))
  refine List.map_congr_left (fun ri _ => ?_)
  have harith : 0 + y * img.bmhd.width + 8 * ri = y * img.bmhd.width + 8 * ri := by ring
  rw [harith]

theorem bodyModel_length (pixels : List Nat) (w np h : Nat) :
    (bodyModel pixels w np h).length = h * np * (w / 8) := by
  rw [bodyModel, cat_length_const _ (np * (w / 8))]
  · simp [Nat.mul_assoc]
  · intro l hl
    simp only [List.mem_map, List.mem_range] at hl
    obtain ⟨y, _, rfl⟩ := hl
    rw [cat_length_const _ (w / 8)]
    · simp
    · intro l2 hl2
      simp only [List.mem_map, List.mem_range] at hl2
      obtain ⟨bpl, _, rfl⟩ := hl2
      simp

theorem bodyModel_getD (pixels : List Nat) (w np h y bpl ri : Nat)
    (hy : y < h) (hbpl : bpl < np) (hri : ri < w / 8) :
    (bodyModel pixels w np h).getD ((y * np + bpl) * (w / 8) + ri) 0
      = byteVal pixels (y * w + 8 * ri) bpl := by
  have hinner : ∀ y' : Nat, ∀ l ∈ (List.range np).map (fun bpl =>
      (List.range (w / 8)).map (fun t => byteVal pixels (y' * w + 8 * t) bpl)),
      l.length = w / 8 := by
    intro y' l hl
    simp only [List.mem_map, List.mem_range] at hl
    obtain ⟨b, _, rfl⟩ := hl
    simp
  have houter : ∀ l ∈ (List.range h).map (fun y' =>
      cat ((List.range np).map (fun bpl =>
        (List.range (w / 8)).map (fun t => byteVal pixels (y' * w + 8 * t) bpl)))),
      l.length = np * (w / 8) := by
    intro l hl
    simp only [List.mem_map, List.mem_range] at hl
    obtain ⟨y', _, rfl⟩ := hl
    rw [cat_length_const _ (w / 8) (hinner y')]
    simp
  have harith : (y * np + bpl) * (w / 8) + ri
      = y * (np * (w / 8)) + (bpl * (w / 8) + ri) := by ring
  have hj : bpl * (w / 8) + ri < np * (w / 8) := by
    have h1 : bpl * (w / 8) + ri < (bpl + 1) * (w / 8) := by
      rw [Nat.add_mul]; omega
    exact lt_of_lt_of_le h1 (Nat.mul_le_mul_right _ (by omega))
  rw [bodyModel, harith, cat_getD_const _ (np * (w / 8)) houter y _ (by simpa using hy) hj,
    map_range_getD_list _ h y hy,
    cat_getD_const _ (w / 8) (hinner y) bpl ri (by simpa using hbpl) hri,
    map_range_getD_list _ np bpl hbpl,
    map_range_getD _ (w / 8) ri 0 hri]

/-! ### Claims C1, C2, C9: the bitplane body -/

/-- C1: for every record with width a multiple of 8, byte-valued pixel indices
and exactly width x height of them, `get_body` succeeds and the body byte at
row-interleaved position `(y * bitplanes + bpl) * (width / 8) + row_index`
(all plane rows of image row 0, then of image row 1, ...) has bit `7 - bit`
set iff the pixel at column `row_index * 8 + bit` of image row `y` has bit
`bpl` of its palette-index value set. -/
theorem C1_body_bit_layout (img : IffImage)
    (h8 : img.bmhd.width % 8 = 0)
    (hlen : img.pixels.length = img.bmhd.width * img.bmhd.height)
    (hpix : ∀ p ∈ img.pixels, p < 256) :
    ∃ body, get_body img = some body ∧
      ∀ y bpl ri bit, y < img.bmhd.height → bpl < img.bmhd.bitplanes →
        ri < img.bmhd.width / 8 → bit < 8 →
        (body.getD ((y * img.bmhd.bitplanes + bpl) * (img.bmhd.width / 8) + ri) 0).testBit
            (7 - bit)
          = (img.pixels.getD (y * img.bmhd.width + (ri * 8 + bit)) 0).testBit bpl := by
  refine ⟨_, get_body_spec img (le_of_eq hlen.symm), ?_⟩
  intro y bpl ri bit hy hbpl hri hbit
  rw [bodyModel_getD img.pixels _ _ _ y bpl ri hy hbpl hri,
    byteVal_testBit _ _ _ bit hbit, maskBit_eq_testBit]
  · have harith : y * img.bmhd.width + 8 * ri + bit
        = y * img.bmhd.width + (ri * 8 + bit) := by ring
    rw [harith]
  · by_cases hin : y * img.bmhd.width + 8 * ri + bit < img.pixels.length
    · rw [List.getD_eq_getElem?_getD, List.getElem?_eq_getElem hin]
      exact hpix _ (List.getElem_mem hin)
    · rw [List.getD_eq_getElem?_getD, List.getElem?_eq_none (by omega)]
      norm_num

/-- C1 witness: the theorem applied to the source's two-bitplane unit-test
record. -/
theorem C1_witness : ∃ body, get_body testImg2 = some body ∧
    ∀ y bpl ri bit, y < testImg2.bmhd.height → bpl < testImg2.bmhd.bitplanes →
      ri < testImg2.bmhd.width / 8 → bit < 8 →
      (body.getD ((y * testImg2.bmhd.bitplanes + bpl) * (testImg2.bmhd.width / 8) + ri) 0).testBit
          (7 - bit)
        = (testImg2.pixels.getD (y * testImg2.bmhd.width + (ri * 8 + bit)) 0).testBit bpl :=
  C1_body_bit_layout testImg2 rfl rfl (by decide)

/-- C2: whenever the pixel buffer covers width x height (in particular for
every canonical record, whose invariant fixes its length to exactly that),
`get_body` returns a body of length height x bitplanes x (width / 8), also for
widths that are not multiples of 8. -/
theorem C2_body_length (img : IffImage)
    (hlen : img.bmhd.width * img.bmhd.height ≤ img.pixels.length) :
    ∃ body, get_body img = some body ∧
      body.length = img.bmhd.height * img.bmhd.bitplanes * (img.bmhd.width / 8) :=
  ⟨_, get_body_spec img hlen, bodyModel_length _ _ _ _⟩

/-- C2 witness: the theorem applied to a width-9 record. -/
theorem C2_witness : ∃ body, get_body oddWidthImg = some body ∧
    body.length = oddWidthImg.bmhd.height * oddWidthImg.bmhd.bitplanes
      * (oddWidthImg.bmhd.width / 8) :=
  C2_body_length oddWidthImg (by decide)

/-- C9: with at least width x height pixel indices, every access `get_body`
performs is in bounds, so it returns a value (never panics), for any width
(multiple of 8 or not) and any bitplane count. -/
theorem C9_body_total (img : IffImage)
    (hlen : img.bmhd.width * img.bmhd.height ≤ img.pixels.length) :
    (get_body img).isSome := by
  rw [get_body_spec img hlen]
  rfl

/-- C9 witness: the theorem applied to the one-bitplane unit-test record. -/
theorem C9_witness : (get_body testImg1).isSome :=
  C9_body_total testImg1 (by decide)

/-! ### Claims C3, C4: header and container serialization -/

theorem get_bmhd_length (img : IffImage) : (get_bmhd img).length = 20 := by
  simp [get_bmhd, be16, be16i]

/-- C4: `get_bmhd` is exactly 20 bytes laying out, big-endian, width, height,
x, y (two's complement), bitplanes, masking, compression, a zero pad byte,
transparent color, x aspect, y aspect, page width and page height: each field
decodes back from its offset. -/
theorem C4_bmhd_layout (img : IffImage)
    (hw : img.bmhd.width < 65536) (hh : img.bmhd.height < 65536)
    (hbp : img.bmhd.bitplanes < 256) (hma : img.bmhd.masking < 256)
    (hco : img.bmhd.compression < 256) (htc : img.bmhd.transparent_color < 65536)
    (hxa : img.bmhd.x_aspect < 256) (hya : img.bmhd.y_aspect < 256)
    (hpw : img.bmhd.page_width < 65536) (hph : img.bmhd.page_height < 65536) :
    (get_bmhd img).length = 20
    ∧ (get_bmhd img).getD 0 0 * 256 + (get_bmhd img).getD 1 0 = img.bmhd.width
    ∧ (get_bmhd img).getD 2 0 * 256 + (get_bmhd img).getD 3 0 = img.bmhd.height
    ∧ ((get_bmhd img).getD 4 0 * 256 + (get_bmhd img).getD 5 0 : Int) = img.bmhd.x % 65536
    ∧ ((get_bmhd img).getD 6 0 * 256 + (get_bmhd img).getD 7 0 : Int) = img.bmhd.y % 65536
    ∧ (get_bmhd img).getD 8 0 = img.bmhd.bitplanes
    ∧ (get_bmhd img).getD 9 0 = img.bmhd.masking
    ∧ (get_bmhd img).getD 10 0 = img.bmhd.compression
    ∧ (get_bmhd img).getD 11 0 = 0
    ∧ (get_bmhd img).getD 12 0 * 256 + (get_bmhd img).getD 13 0
        = img.bmhd.transparent_color
    ∧ (get_bmhd img).getD 14 0 = img.bmhd.x_aspect
    ∧ (get_bmhd img).getD 15 0 = img.bmhd.y_aspect
    ∧ (get_bmhd img).getD 16 0 * 256 + (get_bmhd img).getD 17 0 = img.bmhd.page_width
    ∧ (get_bmhd img).getD 18 0 * 256 + (get_bmhd img).getD 19 0 = img.bmhd.page_height := by
  have hx : (img.bmhd.x % 65536).toNat < 65536 := by
    have h1 : (0:Int) ≤ img.bmhd.x % 65536 := Int.emod_nonneg _ (by norm_num)
    have h2 : img.bmhd.x % 65536 < 65536 := Int.emod_lt_of_pos _ (by norm_num)
    omega
  have hy : (img.bmhd.y % 65536).toNat < 65536 := by
    have h1 : (0:Int) ≤ img.bmhd.y % 65536 := Int.emod_nonneg _ (by norm_num)
    have h2 : img.bmhd.y % 65536 < 65536 := Int.emod_lt_of_pos _ (by norm_num)
    omega
  have hxcast : (((img.bmhd.x % 65536).toNat : Int)) = img.bmhd.x % 65536 :=
    Int.toNat_of_nonneg (Int.emod_nonneg _ (by norm_num))
  have hycast : (((img.bmhd.y % 65536).toNat : Int)) = img.bmhd.y % 65536 :=
    Int.toNat_of_nonneg (Int.emod_nonneg _ (by norm_num))
  simp only [get_bmhd, be16, be16i, List.cons_append, List.nil_append,
    List.getD_cons_zero, List.getD_cons_succ, List.length_append, List.length_cons,
    List.length_nil]
  refine ⟨by norm_num, by omega, by omega, by omega, by omega, by trivial, by trivial,
    by trivial, by trivial, by omega, by trivial, by trivial, by omega, by omega⟩

/-- C4 witness: the theorem applied to the unit-test record. -/
theorem C4_witness : (get_bmhd testImg1).length = 20
    ∧ (get_bmhd testImg1).getD 0 0 * 256 + (get_bmhd testImg1).getD 1 0
        = testImg1.bmhd.width
    ∧ (get_bmhd testImg1).getD 2 0 * 256 + (get_bmhd testImg1).getD 3 0
        = testImg1.bmhd.height
    ∧ ((get_bmhd testImg1).getD 4 0 * 256 + (get_bmhd testImg1).getD 5 0 : Int)
        = testImg1.bmhd.x % 65536
    ∧ ((get_bmhd testImg1).getD 6 0 * 256 + (get_bmhd testImg1).getD 7 0 : Int)
        = testImg1.bmhd.y % 65536
    ∧ (get_bmhd testImg1).getD 8 0 = testImg1.bmhd.bitplanes
    ∧ (get_bmhd testImg1).getD 9 0 = testImg1.bmhd.masking
    ∧ (get_bmhd testImg1).getD 10 0 = testImg1.bmhd.compression
    ∧ (get_bmhd testImg1).getD 11 0 = 0
    ∧ (get_bmhd testImg1).getD 12 0 * 256 + (get_bmhd testImg1).getD 13 0
        = testImg1.bmhd.transparent_color
    ∧ (get_bmhd testImg1).getD 14 0 = testImg1.bmhd.x_aspect
    ∧ (get_bmhd testImg1).getD 15 0 = testImg1.bmhd.y_aspect
    ∧ (get_bmhd testImg1).getD 16 0 * 256 + (get_bmhd testImg1).getD 17 0
        = testImg1.bmhd.page_width
    ∧ (get_bmhd testImg1).getD 18 0 * 256 + (get_bmhd testImg1).getD 19 0
        = testImg1.bmhd.page_height :=
  C4_bmhd_layout testImg1 (by decide) (by decide) (by decide) (by decide)
    (by decide) (by decide) (by decide) (by decide) (by decide) (by decide)

/-- C3: the byte stream of `write` is exactly FORM, the big-endian u32 length
of the inner form, then the inner form: ILBM followed by BMHD, CMAP, BODY in
that order, each as 4-byte tag, big-endian u32 payload length, payload, with
no padding of odd payloads (the inner length is exactly 48 + cmap length +
body length: 4 for ILBM, 28 for the BMHD chunk, 8 plus payload for each of
CMAP and BODY). -/
theorem C3_container_layout (img : IffImage) (body : List Nat)
    (hbody : get_body img = some body) :
    write img = some ([70, 79, 82, 77]
      ++ be32 (48 + (get_cmap img).length + body.length)
      ++ ([73, 76, 66, 77]
        ++ ([66, 77, 72, 68] ++ be32 20 ++ get_bmhd img)
        ++ ([67, 77, 65, 80] ++ be32 (get_cmap img).length ++ get_cmap img)
        ++ ([66, 79, 68, 89] ++ be32 body.length ++ body))) := by
  rw [write, get_ilbm, hbody]
  show some _ = _
  rw [get_bmhd_length]
  congr 2
  simp only [List.length_append, List.length_cons, List.length_nil, get_bmhd_length]
  congr 1
  simp [be32]
  omega

/-- C3 witness: the theorem applied to the unit-test record, whose body is the
single byte 0b01010101. -/
theorem C3_witness : write testImg1 = some ([70, 79, 82, 77]
    ++ be32 (48 + (get_cmap testImg1).length + [85].length)
    ++ ([73, 76, 66, 77]
      ++ ([66, 77, 72, 68] ++ be32 20 ++ get_bmhd testImg1)
      ++ ([67, 77, 65, 80] ++ be32 (get_cmap testImg1).length ++ get_cmap testImg1)
      ++ ([66, 79, 68, 89] ++ be32 [85].length ++ [85]))) :=
  C3_container_layout testImg1 [85] rfl

/-! ### Validator lemmas -/

theorem pixelMatch_triple (r g b : Nat) (color : Color) :
    pixelMatch [r, g, b] color
      = some (decide (r = color.r) && decide (g = color.g) && decide (b = color.b)) := by
  rw [pixelMatch]
  by_cases h1 : r = color.r <;> by_cases h2 : g = color.g <;> simp [h1, h2]

theorem findPos_triple (r g b : Nat) : ∀ (colors : List Color) (i : Nat),
    findPos [r, g, b] colors i
      = some (List.findIdx? (fun color =>
          decide (r = color.r) && decide (g = color.g) && decide (b = color.b)) colors i) := by
  intro colors
  induction colors with
  | nil => intro i; simp [findPos]
  | cons color rest ih =>
    intro i
    rw [findPos, pixelMatch_triple]
    by_cases hm : (decide (r = color.r) && decide (g = color.g) && decide (b = color.b)) = true
    · simp [hm, List.findIdx?_cons]
    · simp only [Bool.not_eq_true] at hm
      simp [hm, List.findIdx?_cons, ih]

theorem findIdx?_lt_of_eq_some (p : Color → Bool) :
    ∀ (colors : List Color) (i j : Nat),
      List.findIdx? p colors i = some j → j < i + colors.length := by
  intro colors
  induction colors with
  | nil => intro i j h; simp [List.findIdx?] at h
  | cons color rest ih =>
    intro i j h
    rw [List.findIdx?_cons] at h
    by_cases hp : p color = true
    · rw [if_pos hp] at h
      simp only [List.length_cons]
      cases h
      omega
    · rw [if_neg hp] at h
      have := ih (i + 1) j h
      simp only [List.length_cons]
      omega

theorem len3_decomp (l : List Nat) (h : l.length = 3) : ∃ a b c2, l = [a, b, c2] := by
  cases l with
  | nil => simp at h
  | cons a l =>
    cases l with
    | nil => simp at h
    | cons b l =>
      cases l with
      | nil => simp at h
      | cons c2 l =>
        cases l with
        | nil => exact ⟨a, b, c2, rfl⟩
        | cons d l => simp at h

/-- Closed form of the per-pixel mapping on a complete 3-byte chunk. -/
theorem mapPixel_triple (colors : List Color) (r g b : Nat) :
    mapPixel colors [r, g, b]
      = some (match List.findIdx? (fun color =>
          decide (r = color.r) && decide (g = color.g) && decide (b = color.b)) colors with
        | some i => Except.ok (i % 256)
        | none => Except.error (IffConvertError.InvalidPixel (r, g, b))) := by
  rw [mapPixel, findPos_triple]
  cases hidx : List.findIdx? (fun color =>
      decide (r = color.r) && decide (g = color.g) && decide (b = color.b)) colors 0 with
  | none => simp
  | some i => simp

theorem mapPixel_total (colors : List Color) (pixel : List Nat)
    (h : pixel.length = 3) : (mapPixel colors pixel).isSome := by
  obtain ⟨r, g, b, rfl⟩ := len3_decomp pixel h
  rw [mapPixel_triple]
  rfl

theorem mapPixels_total (colors : List Color) :
    ∀ chunks : List (List Nat), (∀ chunk ∈ chunks, chunk.length = 3) →
      (mapPixels colors chunks).isSome := by
  intro chunks
  induction chunks with
  | nil => intro _; rfl
  | cons chunk rest ih =>
    intro hall
    obtain ⟨p, hp⟩ := Option.isSome_iff_exists.mp
      (mapPixel_total colors chunk (hall chunk (by simp)))
    obtain ⟨ps, hps⟩ := Option.isSome_iff_exists.mp
      (ih (fun ch hch => hall ch (by simp [hch])))
    rw [mapPixels, hp]
    cases p with
    | error e => simp
    | ok i =>
      simp only [Option.bind_eq_bind, Option.some_bind]
      cases ps with
      | error e => simp [hps]
      | ok is => simp [hps]

theorem colorFromChunk_len3 (chunk : List Nat) (h : chunk.length = 3) :
    colorFromChunk chunk
      = some { r := chunk.getD 0 0, g := chunk.getD 1 0, b := chunk.getD 2 0 } := by
  obtain ⟨a, b, c2, rfl⟩ := len3_decomp chunk h
  rfl

theorem chunks3_len3 : ∀ (fuel : Nat) (l : List Nat), l.length ≤ fuel →
    l.length % 3 = 0 → ∀ chunk ∈ chunks3 l, chunk.length = 3 := by
  intro fuel
  induction fuel with
  | zero =>
    intro l hl _
    have : l = [] := List.length_eq_zero.mp (by omega)
    subst this
    simp [chunks3]
  | succ k ih =>
    intro l hl hmod
    match l with
    | [] => simp [chunks3]
    | [a] => simp at hmod
    | [a, b] => simp at hmod
    | a :: b :: c2 :: rest =>
      intro chunk hchunk
      rw [chunks3] at hchunk
      rcases List.mem_cons.mp hchunk with h3 | h3
      · subst h3; rfl
      · exact ih rest (by simp at hl; omega) (by simp at hmod ⊢; omega) chunk h3

/-- A successful palette conversion forces the palette byte length to be a
multiple of 3 and produces exactly `length / 3` colors. -/
theorem chunks3_colors : ∀ (fuel : Nat) (l : List Nat), l.length ≤ fuel →
    ∀ cs, mapOption colorFromChunk (chunks3 l) = some cs →
      l.length % 3 = 0 ∧ cs.length = l.length / 3 := by
  intro fuel
  induction fuel with
  | zero =>
    intro l hl cs h
    have : l = [] := List.length_eq_zero.mp (by omega)
    subst this
    simp [chunks3, mapOption] at h
    subst h
    simp
  | succ k ih =>
    intro l hl cs h
    match l with
    | [] =>
      simp [chunks3, mapOption] at h
      subst h
      simp
    | [a] => simp [chunks3, mapOption, colorFromChunk] at h
    | [a, b] => simp [chunks3, mapOption, colorFromChunk] at h
    | a :: b :: c2 :: rest =>
      rw [chunks3] at h
      rw [mapOption] at h
      rw [show colorFromChunk [a, b, c2] = some { r := a, g := b, b := c2 } from rfl] at h
      simp only [Option.bind_eq_bind, Option.some_bind, Option.bind_eq_some] at h
      obtain ⟨cs', hcs', hcons⟩ := h
      obtain ⟨hmod, hlen⟩ := ih rest (by simp at hl; omega) cs' hcs'
      have hcons2 : { r := a, g := b, b := c2 } :: cs' = cs := by simpa using hcons
      constructor
      · simp only [List.length_cons]
        omega
      · rw [← hcons2]
        simp only [List.length_cons]
        omega

theorem mapOption_colorFromChunk_total (chunks : List (List Nat))
    (h : ∀ chunk ∈ chunks, chunk.length = 3) :
    (mapOption colorFromChunk chunks).isSome := by
  induction chunks with
  | nil => rfl
  | cons chunk rest ih =>
    rw [mapOption, colorFromChunk_len3 chunk (h chunk (by simp))]
    simp only [Option.bind_eq_bind, Option.some_bind]
    obtain ⟨cs, hcs⟩ := Option.isSome_iff_exists.mp (ih (fun ch hch => h ch (by simp [hch])))
    rw [hcs]
    rfl

theorem cmap_foldl (cs : List Color) : ∀ acc : List Nat,
    cs.foldl (fun v color => v ++ [color.r, color.g, color.b]) acc
      = acc ++ cat (cs.map (fun color => [color.r, color.g, color.b])) := by
  induction cs with
  | nil => intro acc; simp [cat]
  | cons color cs ih => intro acc; simp [cat, ih]

/-- Inversion of a successful `from_png` run. -/
theorem from_png_ok (info : PngInfo) (img : IffImage)
    (h : from_png info = some (Except.ok img)) :
    info.color_type = ColorType.Indexed
    ∧ ∃ p colors pixelIdx,
      info.palette = some p ∧ p.length ≠ 0 ∧ p.length / 3 ≤ 255
      ∧ mapOption colorFromChunk (chunks3 p) = some colors
      ∧ mapPixels colors (chunks3 info.buf) = some (Except.ok pixelIdx)
      ∧ img.cmap.colors = colors
      ∧ img.bmhd.bitplanes = ceilLog2 (p.length / 3)
      ∧ img.pixels = pixelIdx := by
  by_cases hct : info.color_type = ColorType.Indexed
  · refine ⟨hct, ?_⟩
    cases hpal : info.palette with
    | none => simp [from_png, hct, hpal] at h
    | some p =>
      by_cases h0 : p.length = 0
      · simp [from_png, hct, hpal, h0] at h
      · by_cases hnc : p.length / 3 > 255
        · simp [from_png, hct, hpal, h0, hnc] at h
        · cases hcolors : mapOption colorFromChunk (chunks3 p) with
          | none => simp [from_png, hct, hpal, h0, hnc, hcolors] at h
          | some colors =>
            cases hpix : mapPixels colors (chunks3 info.buf) with
            | none => simp [from_png, hct, hpal, h0, hnc, hcolors, hpix] at h
            | some res =>
              cases res with
              | error e => simp [from_png, hct, hpal, h0, hnc, hcolors, hpix] at h
              | ok pixelIdx =>
                simp only [from_png, hct, hpal, hcolors, hpix, ne_eq, not_true_eq_false,
                  Bool.false_eq_true, if_false, gt_iff_lt] at h
                rw [if_neg h0, if_neg (by omega : ¬ 255 < p.length / 3)] at h
                have himg : img = IffImage.mk
                    (BitmapHeader.mk (info.width % 65536) (info.height % 65536) 0 0
                      (ceilLog2 (p.length / 3)) 0 0 0 0 0 (info.width % 65536)
                      (info.height % 65536))
                    (ColorMap.mk colors) pixelIdx :=
                  (Except.ok.inj (Option.some.inj h)).symm
                refine ⟨p, colors, pixelIdx, rfl, h0, by omega, hcolors, hpix, ?_, ?_, ?_⟩
                all_goals rw [himg]
  · rw [from_png, if_pos (by simpa using hct)] at h
    simp at h

/-! ### Claims C5, C6, C7, C8, C10: the validator -/

/-- C5: `get_cmap` emits each palette entry as three consecutive bytes R, G, B
in palette order, so its length is 3 x entry count; and every record the
validator constructs has between 1 and 255 palette entries. -/
theorem C5_cmap_layout :
    (∀ img : IffImage,
      get_cmap img = cat (img.cmap.colors.map (fun color => [color.r, color.g, color.b]))
      ∧ (get_cmap img).length = 3 * img.cmap.colors.length)
    ∧ (∀ info img, from_png info = some (Except.ok img) →
      1 ≤ img.cmap.colors.length ∧ img.cmap.colors.length ≤ 255) := by
  constructor
  · intro img
    have heq : get_cmap img
        = cat (img.cmap.colors.map (fun color => [color.r, color.g, color.b])) := by
      rw [get_cmap, cmap_foldl]
      rfl
    refine ⟨heq, ?_⟩
    rw [heq, cat_length_const _ 3]
    · simp [Nat.mul_comm]
    · intro l hl
      simp only [List.mem_map] at hl
      obtain ⟨color, _, rfl⟩ := hl
      rfl
  · intro info img h
    obtain ⟨-, p, colors, pixelIdx, -, h0, hnc, hcolors, -, hcm, -, -⟩ := from_png_ok info img h
    obtain ⟨hmod, hcount⟩ := chunks3_colors p.length p le_rfl colors hcolors
    rw [hcm, hcount]
    omega

/-- C5 witness: the theorem's validator part applied to the single-color
input. -/
theorem C5_witness : 1 ≤ oneColorImg.cmap.colors.length
    ∧ oneColorImg.cmap.colors.length ≤ 255 :=
  C5_cmap_layout.2 onePixelInfo oneColorImg rfl

/-- C6: the validator fails with WrongColorType for non-indexed input; for
indexed input it fails with NoPalette when the palette is absent, EmptyPalette
when it has zero bytes, TooManyColors(num_colors) when num_colors =
palette length / 3 exceeds 255, in that order, and only produces a record when
none of these checks fails. -/
theorem C6_validation_order (info : PngInfo) :
    (info.color_type ≠ ColorType.Indexed →
      from_png info = some (Except.error (IffConvertError.WrongColorType info.color_type)))
    ∧ (info.color_type = ColorType.Indexed → info.palette = none →
      from_png info = some (Except.error IffConvertError.NoPalette))
    ∧ (∀ p, info.color_type = ColorType.Indexed → info.palette = some p →
      p.length = 0 → from_png info = some (Except.error IffConvertError.EmptyPalette))
    ∧ (∀ p, info.color_type = ColorType.Indexed → info.palette = some p →
      p.length ≠ 0 → 255 < p.length / 3 →
      from_png info = some (Except.error (IffConvertError.TooManyColors (p.length / 3))))
    ∧ (∀ img, from_png info = some (Except.ok img) →
      info.color_type = ColorType.Indexed
      ∧ ∃ p, info.palette = some p ∧ p.length ≠ 0 ∧ p.length / 3 ≤ 255) := by
  refine ⟨?_, ?_, ?_, ?_, ?_⟩
  · intro hct
    rw [from_png, if_pos hct]
  · intro hct hpal
    simp [from_png, hct, hpal]
  · intro p hct hpal h0
    simp [from_png, hct, hpal, h0]
  · intro p hct hpal h0 hnc
    simp [from_png, hct, hpal, h0, hnc]
  · intro img h
    obtain ⟨hct, p, _, _, hpal, h0, hnc, -, -, -, -, -⟩ := from_png_ok info img h
    exact ⟨hct, p, hpal, h0, hnc⟩

/-- C6 witness: the WrongColorType branch applied to an RGB input. -/
theorem C6_witness : from_png rgbInfo
    = some (Except.error (IffConvertError.WrongColorType rgbInfo.color_type)) :=
  (C6_validation_order rgbInfo).1 (by decide)

/-- C7: the bitplane count of every accepted palette is the ceiling base-2
logarithm of its color count; palette sizes 1, 2, 3, 4, 5, 255 give 0, 1, 2,
2, 3, 8; and a single-color palette is accepted with zero bitplanes. -/
theorem C7_bitplane_formula :
    (∀ info p img, info.palette = some p → from_png info = some (Except.ok img) →
      img.bmhd.bitplanes = Nat.clog 2 (p.length / 3))
    ∧ Nat.clog 2 1 = 0 ∧ Nat.clog 2 2 = 1 ∧ Nat.clog 2 3 = 2 ∧ Nat.clog 2 4 = 2
    ∧ Nat.clog 2 5 = 3 ∧ Nat.clog 2 255 = 8
    ∧ from_png onePixelInfo = some (Except.ok oneColorImg)
    ∧ oneColorImg.bmhd.bitplanes = 0 := by
  refine ⟨?_, ?_, ?_, ?_, ?_, ?_, ?_, rfl, rfl⟩
  · intro info p img hpal h
    obtain ⟨-, p2, -, -, hpal2, -, -, -, -, -, hbp, -⟩ := from_png_ok info img h
    have hp : p2 = p := by
      rw [hpal] at hpal2
      exact (Option.some.inj hpal2).symm
    rw [hbp, hp, ceilLog2_eq_clog]
  all_goals rw [← ceilLog2_eq_clog]; rfl

/-- C7 witness: the formula applied to the accepted single-color input. -/
theorem C7_witness : oneColorImg.bmhd.bitplanes = Nat.clog 2 ([0, 0, 0].length / 3) :=
  C7_bitplane_formula.1 onePixelInfo [0, 0, 0] oneColorImg rfl rfl

/-- C8: on a complete RGB triple, the pixel mapper returns the index of the
first (smallest-index) palette entry matching all three components, and
InvalidPixel carrying exactly that triple when no entry matches; a duplicated
palette color resolves to the first occurrence. -/
theorem C8_pixel_lookup :
    (∀ (colors : List Color) (r g b : Nat), colors.length ≤ 256 →
      mapPixel colors [r, g, b]
        = some (match List.findIdx? (fun color =>
            decide (r = color.r) && decide (g = color.g) && decide (b = color.b)) colors with
          | some i => Except.ok i
          | none => Except.error (IffConvertError.InvalidPixel (r, g, b))))
    ∧ mapPixel [Color.mk 9 9 9, Color.mk 9 9 9] [9, 9, 9] = some (Except.ok 0) := by
  constructor
  · intro colors r g b hlen
    rw [mapPixel_triple]
    cases hidx : List.findIdx? (fun color =>
        decide (r = color.r) && decide (g = color.g) && decide (b = color.b)) colors with
    | none => rfl
    | some i =>
      have hb := findIdx?_lt_of_eq_some _ colors 0 i hidx
      show some (Except.ok (i % 256)) = some (Except.ok i)
      rw [Nat.mod_eq_of_lt (by omega)]
  · rfl

/-- C8 witness: the lookup form applied to a concrete palette and pixel. -/
theorem C8_witness : mapPixel [Color.mk 1 2 3] [1, 2, 3]
    = some (match List.findIdx? (fun color =>
        decide (1 = color.r) && decide (2 = color.g) && decide (3 = color.b))
        [Color.mk 1 2 3] with
      | some i => Except.ok i
      | none => Except.error (IffConvertError.InvalidPixel (1, 2, 3))) :=
  C8_pixel_lookup.1 [Color.mk 1 2 3] 1 2 3 (by decide)

/-- C10: a 2-byte palette passes the EmptyPalette and TooManyColors checks but
panics building the color map; a 2-byte pixel buffer with a valid palette
panics in the pixel mapping; and the validator never panics when both byte
lengths are multiples of 3. -/
theorem C10_mod3_panics :
    from_png badPalInfo = none
    ∧ from_png badBufInfo = none
    ∧ (∀ info, (∀ p, info.palette = some p → p.length % 3 = 0) →
        info.buf.length % 3 = 0 → from_png info ≠ none) := by
  refine ⟨rfl, rfl, ?_⟩
  intro info hpal hbuf
  by_cases hct : info.color_type = ColorType.Indexed
  · cases hp : info.palette with
    | none => simp [from_png, hct, hp]
    | some p =>
      by_cases h0 : p.length = 0
      · simp [from_png, hct, hp, h0]
      · by_cases hnc : p.length / 3 > 255
        · simp [from_png, hct, hp, h0, hnc]
        · have hall := chunks3_len3 p.length p le_rfl (hpal p hp)
          obtain ⟨colors, hcolors⟩ := Option.isSome_iff_exists.mp
            (mapOption_colorFromChunk_total (chunks3 p) hall)
          have hballs := chunks3_len3 info.buf.length info.buf le_rfl hbuf
          obtain ⟨res, hres⟩ := Option.isSome_iff_exists.mp
            (mapPixels_total colors (chunks3 info.buf) hballs)
          cases res with
          | error e => simp [from_png, hct, hp, h0, hnc, hcolors, hres]
          | ok pixelIdx => simp [from_png, hct, hp, h0, hnc, hcolors, hres]
  · simp [from_png, hct]

/-- C10 witness: the totality part applied to the single-color input. -/
theorem C10_witness : from_png onePixelInfo ≠ none :=
  C10_mod3_panics.2.2 onePixelInfo
    (fun p hp => by
      have : p = [0, 0, 0] := (Option.some.inj hp).symm
      rw [this]
      rfl)
    rfl

end Ipng2iff
